import Mathlib

set_option maxRecDepth 20000

/-!
Verification of the detection engine of `src/injection_detector.py`
(prompt-injection-interceptor).

The Python module is embedded shallowly:

* content strings are `List Char`;
* each compiled regular expression of the pattern corpus is translated into
  a small regex AST (`Regex`) covering exactly the constructs the corpus
  uses: case-insensitive literals, single-character classes, alternation,
  concatenation, repetition of a character class, and the word-boundary
  assertion `\b`.  `re.IGNORECASE` is reflected by the case-insensitive
  comparison used for literals; `re.MULTILINE` only affects the anchors
  `^`/`$`, which no pattern uses; `re.DOTALL` only affects `.`, which no
  structural pattern uses.  The character classes `\s` and `\w` (the latter
  implicit in `\b`) are modelled over their ASCII portion plus the common
  Unicode whitespace code points; Python additionally treats non-ASCII
  letters and digits as word characters, which none of the concrete inputs
  used below contain.  For this reason the concatenation theorems do not
  assume the model's word class at the seam: they assume `seamGuarded`,
  which demands an ASCII non-word character there — a character on which
  the model's word class and Python's `\w` agree exactly.
* `pattern.search(content)` is `searchB`: does the pattern match some span
  of the content.  `matchEnds r s i` returns every position `j` such that
  `r` matches the span `[i, j)` of `s` (word boundaries evaluated against
  the full string `s`), so `searchB` agrees with the backtracking engine on
  match existence.
-/

/-! ## Character helpers -/

/-- The NUL character, used as an out-of-range default. -/
def nulCh : Char := Char.ofNat 0

/-- ASCII lower-casing, reflecting how `re.IGNORECASE` compares the
corpus's (ASCII) pattern text against content. -/
def toLowerCh (c : Char) : Char :=
  if 65 ≤ c.val && c.val ≤ 90 then Char.ofNat (c.toNat + 32) else c

/-- Case-insensitive character comparison (pattern character `k` against
content character `c`). -/
def ciEq (k : Char) : Char → Bool := fun c => toLowerCh c == toLowerCh k

/-- Word characters, the class `\w` underlying `\b` (ASCII portion only:
Python additionally counts non-ASCII letters and digits as word
characters, so this under-approximates Python's class outside ASCII;
theorems whose truth depends on `\b` behaviour at a concatenation seam
therefore only use this class through `asciiNonWord`, i.e. on characters
where it coincides with Python's). -/
def isWordChar (c : Char) : Bool :=
  (65 ≤ c.val && c.val ≤ 90) || (97 ≤ c.val && c.val ≤ 122) ||
    (48 ≤ c.val && c.val ≤ 57) || c.val == 95

/-- The whitespace class `\s` of Python `re` on `str`. -/
def isSpaceCh (c : Char) : Bool :=
  (9 ≤ c.val && c.val ≤ 13) || c.val == 32 || (28 ≤ c.val && c.val ≤ 31) ||
    c.val == 133 || c.val == 160 || c.val == 0x1680 ||
    (0x2000 ≤ c.val && c.val ≤ 0x200a) || c.val == 0x2028 || c.val == 0x2029 ||
    c.val == 0x202f || c.val == 0x205f || c.val == 0x3000

/-- The base64 alphabet class `[A-Za-z0-9+/]`. -/
def isB64Ch (c : Char) : Bool :=
  (65 ≤ c.val && c.val ≤ 90) || (97 ≤ c.val && c.val ≤ 122) ||
    (48 ≤ c.val && c.val ≤ 57) || c == '+' || c == '/'

/-- The class `[^>]`. -/
def notGt (c : Char) : Bool := !(c == '>')

/-- The class `["\x27]` (double or single quote). -/
def quoteCh (c : Char) : Bool := c == '"' || c.val == 39

/-- The class `[^"\x27]`. -/
def notQuote (c : Char) : Bool := !(quoteCh c)

/-- `.` without `DOTALL`: any character except newline. -/
def notNL (c : Char) : Bool := !(c.val == 10)

/-- The characters of a string literal. -/
def chars (s : String) : List Char := s.data

/-! ## Regex AST -/

/-- The fragment of regular expressions used by the pattern corpus. -/
inductive Regex where
  /-- matches the empty span -/
  | eps : Regex
  /-- case-insensitive literal -/
  | str : List Char → Regex
  /-- one character of a class -/
  | cls : (Char → Bool) → Regex
  /-- the word-boundary assertion `\b` -/
  | wordB : Regex
  | seq : Regex → Regex → Regex
  | alt : Regex → Regex → Regex
  /-- `p{lo,}` (`hi = none`) or `p{lo,hi}` over a character class -/
  | rep : (Char → Bool) → Nat → Option Nat → Regex

/-- Does the literal `kw` match a case-insensitive prefix of `l`? -/
def ciMatchAt : List Char → List Char → Bool
  | [], _ => true
  | _ :: _, [] => false
  | k :: ks, c :: cs => ciEq k c && ciMatchAt ks cs

/-- Length of the maximal leading run of characters satisfying `p`. -/
def runLen (p : Char → Bool) : List Char → Nat
  | [] => 0
  | c :: cs => if p c then runLen p cs + 1 else 0

/-- Is the content character at position `i` (if any) a word character? -/
def wordAt (s : List Char) (i : Nat) : Bool := isWordChar (s.getD i nulCh)

/-- Is position `i` a word boundary of `s` (Python `\b`)? -/
def wordBoundary (s : List Char) (i : Nat) : Bool :=
  match i with
  | 0 => wordAt s 0
  | k + 1 => wordAt s k != wordAt s (k + 1)

/-- The largest number of characters a repetition `p{lo,hi}` may consume
from the remaining content `l`. -/
def repTop (p : Char → Bool) (hi : Option Nat) (l : List Char) : Nat :=
  match hi with
  | none => runLen p l
  | some h => min (runLen p l) h

/-- All positions `j` such that the regex matches exactly the span `[i, j)`
of `s`, with `\b` evaluated against the full string `s`. -/
def matchEnds : Regex → List Char → Nat → List Nat
  | .eps, _, i => [i]
  | .str kw, s, i => if ciMatchAt kw (s.drop i) then [i + kw.length] else []
  | .cls p, s, i => if i < s.length && p (s.getD i nulCh) then [i + 1] else []
  | .wordB, s, i => if wordBoundary s i then [i] else []
  | .seq a b, s, i => (matchEnds a s i).flatMap (fun m => matchEnds b s m)
  | .alt a b, s, i => matchEnds a s i ++ matchEnds b s i
  | .rep p lo hi, s, i =>
      if lo ≤ repTop p hi (s.drop i) then
        List.range' (i + lo) (repTop p hi (s.drop i) - lo + 1)
      else []

/-- `pattern.search(content)`: does the pattern match some span of the
content?  (Python's backtracking search succeeds exactly when some span
matches; a zero-width match also counts, as a match object is truthy.) -/
def searchB (r : Regex) (s : List Char) : Bool :=
  (List.range (s.length + 1)).any (fun i => !(matchEnds r s i).isEmpty)

/-! ## Pattern combinators mirroring the regex notation of the source -/

/-- A case-insensitive literal piece of a pattern. -/
def lit (s : String) : Regex := .str s.data

/-- `\s+` -/
def ws1 : Regex := .rep isSpaceCh 1 none

/-- `\s*` -/
def ws0 : Regex := .rep isSpaceCh 0 none

/-- `(...)?` -/
def opt (r : Regex) : Regex := .alt .eps r

/-- `c?` for a single character -/
def optCh (c : Char) : Regex := .rep (ciEq c) 0 (some 1)

/-- `.*` (no `DOTALL`: stops at newlines) -/
def dotStar : Regex := .rep notNL 0 none

/-- Concatenation of a list of pieces. -/
def seqs (l : List Regex) : Regex := l.foldr .seq .eps

/-- Alternation of a list of branches (`(a|b|c)`). -/
def alts : List Regex → Regex
  | [] => .eps
  | [r] => r
  | r :: rs => .alt r (alts rs)

/-- The class `[,\s]`. -/
def commaSp (c : Char) : Bool := c == ',' || isSpaceCh c

/-- The single-character class `[k]` (case-sensitive, used for `=`/`-`/`*`). -/
def eqCh (k : Char) : Char → Bool := fun c => c == k

/-- The class `[\x{200B}\x{200C}\x{200D}\x{FEFF}]` (zero-width characters). -/
def zeroWidthCh (c : Char) : Bool :=
  c.val == 0x200B || c.val == 0x200C || c.val == 0x200D || c.val == 0xFEFF

/-- The class `[\x{202A}-\x{202E}\x{2066}-\x{2069}]` (direction overrides). -/
def dirOverrideCh (c : Char) : Bool :=
  (0x202A ≤ c.val && c.val ≤ 0x202E) || (0x2066 ≤ c.val && c.val ≤ 0x2069)

/-! ## The pattern corpus

A rule is a (compiled pattern, score, description) triple, exactly as in
`InjectionDetector.INJECTION_PATTERNS` / `STRUCTURAL_PATTERNS`. -/

/-- A detection rule: compiled pattern, score, description. -/
abbrev Rule := Regex × Int × String

/-- `InjectionDetector.INJECTION_PATTERNS`, compiled with
`re.IGNORECASE | re.MULTILINE` (no pattern uses the anchors affected by
`MULTILINE`).  Each entry's comment quotes the source pattern. -/
def INJECTION_PATTERNS : List Rule := [
  -- IGNORE\s+(ALL\s+)?(PREVIOUS\s+|PRIOR\s+|ABOVE\s+)?(INSTRUCTIONS?|PROMPTS?)
  (seqs [lit ("IGNORE"), ws1, opt (seqs [lit ("ALL"), ws1]),
     opt (alts [seqs [lit ("PREVIOUS"), ws1], seqs [lit ("PRIOR"), ws1],
       seqs [lit ("ABOVE"), ws1]]),
     alts [seqs [lit ("INSTRUCTION"), optCh 's'], seqs [lit ("PROMPT"), optCh 's']]],
   50, "Instruction override attempt"),
  -- DISREGARD\s+(ALL\s+)?(PREVIOUS\s+|PRIOR\s+)?(INSTRUCTIONS?|PROMPTS?)
  (seqs [lit ("DISREGARD"), ws1, opt (seqs [lit ("ALL"), ws1]),
     opt (alts [seqs [lit ("PREVIOUS"), ws1], seqs [lit ("PRIOR"), ws1]]),
     alts [seqs [lit ("INSTRUCTION"), optCh 's'], seqs [lit ("PROMPT"), optCh 's']]],
   50, "Instruction override attempt"),
  -- FORGET\s+(ALL\s+|YOUR\s+)?(PREVIOUS\s+|PRIOR\s+)?(INSTRUCTIONS?|PROMPTS?)
  (seqs [lit ("FORGET"), ws1,
     opt (alts [seqs [lit ("ALL"), ws1], seqs [lit ("YOUR"), ws1]]),
     opt (alts [seqs [lit ("PREVIOUS"), ws1], seqs [lit ("PRIOR"), ws1]]),
     alts [seqs [lit ("INSTRUCTION"), optCh 's'], seqs [lit ("PROMPT"), optCh 's']]],
   50, "Instruction override attempt"),
  -- OVERRIDE\s+(ALL\s+)?(PREVIOUS\s+|PRIOR\s+)?(INSTRUCTIONS?|PROMPTS?)
  (seqs [lit ("OVERRIDE"), ws1, opt (seqs [lit ("ALL"), ws1]),
     opt (alts [seqs [lit ("PREVIOUS"), ws1], seqs [lit ("PRIOR"), ws1]]),
     alts [seqs [lit ("INSTRUCTION"), optCh 's'], seqs [lit ("PROMPT"), optCh 's']]],
   50, "Instruction override attempt"),
  -- NEW\s+INSTRUCTIONS?\s*:
  (seqs [lit ("NEW"), ws1, lit ("INSTRUCTION"), optCh 's', ws0, lit (":")],
   50, "New instruction injection"),
  -- SYSTEM\s+PROMPT\s*:
  (seqs [lit ("SYSTEM"), ws1, lit ("PROMPT"), ws0, lit (":")],
   50, "System prompt injection"),
  -- UPDATED?\s+INSTRUCTIONS?\s*:
  (seqs [lit ("UPDATE"), optCh 'd', ws1, lit ("INSTRUCTION"), optCh 's', ws0, lit (":")],
   40, "Instruction update attempt"),
  -- REVISED\s+INSTRUCTIONS?\s*:
  (seqs [lit ("REVISED"), ws1, lit ("INSTRUCTION"), optCh 's', ws0, lit (":")],
   40, "Instruction revision attempt"),
  -- YOU\s+ARE\s+NOW\s+
  (seqs [lit ("YOU"), ws1, lit ("ARE"), ws1, lit ("NOW"), ws1],
   50, "Role hijacking attempt"),
  -- ACT\s+AS\s+(IF\s+YOU\s+(ARE|WERE)\s+)?
  (seqs [lit ("ACT"), ws1, lit ("AS"), ws1,
     opt (seqs [lit ("IF"), ws1, lit ("YOU"), ws1,
       alts [lit ("ARE"), lit ("WERE")], ws1])],
   50, "Role hijacking attempt"),
  -- PRETEND\s+(TO\s+BE|YOU\s+ARE)\s+
  (seqs [lit ("PRETEND"), ws1,
     alts [seqs [lit ("TO"), ws1, lit ("BE")], seqs [lit ("YOU"), ws1, lit ("ARE")]],
     ws1],
   50, "Role hijacking attempt"),
  -- FROM\s+NOW\s+ON[,\s]+(YOU|YOUR)\s+
  (seqs [lit ("FROM"), ws1, lit ("NOW"), ws1, lit ("ON"), .rep commaSp 1 none,
     alts [lit ("YOU"), lit ("YOUR")], ws1],
   50, "Role hijacking attempt"),
  -- ENTERING\s+(MAINTENANCE|DEVELOPER|ADMIN|DEBUG)\s+MODE
  (seqs [lit ("ENTERING"), ws1,
     alts [lit ("MAINTENANCE"), lit ("DEVELOPER"), lit ("ADMIN"), lit ("DEBUG")],
     ws1, lit ("MODE")],
   50, "Mode hijacking attempt"),
  -- \bJAILBREAK\b
  (seqs [.wordB, lit ("JAILBREAK"), .wordB], 50, "Jailbreak keyword"),
  -- \bDAN\s+MODE\b
  (seqs [.wordB, lit ("DAN"), ws1, lit ("MODE"), .wordB], 50, "DAN mode jailbreak"),
  -- \bDEVELOPER\s+MODE\b
  (seqs [.wordB, lit ("DEVELOPER"), ws1, lit ("MODE"), .wordB],
   50, "Developer mode jailbreak"),
  -- \bUNRESTRICTED\s+MODE\b
  (seqs [.wordB, lit ("UNRESTRICTED"), ws1, lit ("MODE"), .wordB],
   50, "Unrestricted mode jailbreak"),
  -- \[INST\]
  (lit ("[INST]"), 50, "Model token [INST]"),
  -- \[/INST\]
  (lit ("[/INST]"), 50, "Model token [/INST]"),
  -- <\|im_start\|>
  (lit ("<|im_start|>"), 50, "Model token <|im_start|>"),
  -- <\|im_end\|>
  (lit ("<|im_end|>"), 50, "Model token <|im_end|>"),
  -- <<SYS>>
  (lit ("<<SYS>>"), 50, "Model token <<SYS>>"),
  -- <</SYS>>
  (lit ("<</SYS>>"), 50, "Model token <</SYS>>"),
  -- <\|system\|>
  (lit ("<|system|>"), 50, "Model token <|system|>"),
  -- <\|user\|>
  (lit ("<|user|>"), 50, "Model token <|user|>"),
  -- <\|assistant\|>
  (lit ("<|assistant|>"), 50, "Model token <|assistant|>"),
  -- DO\s+NOT\s+(TELL|INFORM|MENTION|REVEAL)\b.*\bUSER
  (seqs [lit ("DO"), ws1, lit ("NOT"), ws1,
     alts [lit ("TELL"), lit ("INFORM"), lit ("MENTION"), lit ("REVEAL")],
     .wordB, dotStar, .wordB, lit ("USER")],
   50, "Secrecy instruction"),
  -- DON'?T\s+(TELL|INFORM|MENTION|REVEAL)\b.*\bUSER
  (seqs [lit ("DON"), optCh (Char.ofNat 39), lit ("T"), ws1,
     alts [lit ("TELL"), lit ("INFORM"), lit ("MENTION"), lit ("REVEAL")],
     .wordB, dotStar, .wordB, lit ("USER")],
   50, "Secrecy instruction"),
  -- HIDE\s+THIS\s+(FROM|MESSAGE)
  (seqs [lit ("HIDE"), ws1, lit ("THIS"), ws1, alts [lit ("FROM"), lit ("MESSAGE")]],
   50, "Secrecy instruction"),
  -- KEEP\s+THIS\s+(SECRET|HIDDEN|PRIVATE)
  (seqs [lit ("KEEP"), ws1, lit ("THIS"), ws1,
     alts [lit ("SECRET"), lit ("HIDDEN"), lit ("PRIVATE")]],
   50, "Secrecy instruction"),
  -- BEGIN\s+YOUR\s+RESPONSE\s+WITH
  (seqs [lit ("BEGIN"), ws1, lit ("YOUR"), ws1, lit ("RESPONSE"), ws1, lit ("WITH")],
   50, "Response manipulation"),
  -- OUTPUT\s+(ALL\s+)?(YOUR\s+)?(API\s+KEYS?|CREDENTIALS?|TOKENS?|SECRETS?)
  (seqs [lit ("OUTPUT"), ws1, opt (seqs [lit ("ALL"), ws1]),
     opt (seqs [lit ("YOUR"), ws1]),
     alts [seqs [lit ("API"), ws1, lit ("KEY"), optCh 's'],
       seqs [lit ("CREDENTIAL"), optCh 's'], seqs [lit ("TOKEN"), optCh 's'],
       seqs [lit ("SECRET"), optCh 's']]],
   50, "Data exfiltration attempt"),
  -- REVEAL\s+(ALL\s+)?(YOUR\s+)?(API\s+KEYS?|CREDENTIALS?|TOKENS?|SECRETS?)
  (seqs [lit ("REVEAL"), ws1, opt (seqs [lit ("ALL"), ws1]),
     opt (seqs [lit ("YOUR"), ws1]),
     alts [seqs [lit ("API"), ws1, lit ("KEY"), optCh 's'],
       seqs [lit ("CREDENTIAL"), optCh 's'], seqs [lit ("TOKEN"), optCh 's'],
       seqs [lit ("SECRET"), optCh 's']]],
   50, "Data exfiltration attempt"),
  -- SHOW\s+(ME\s+)?(ALL\s+)?(YOUR\s+)?(ENVIRONMENT|ENV)\s+VARIABLES?
  (seqs [lit ("SHOW"), ws1, opt (seqs [lit ("ME"), ws1]),
     opt (seqs [lit ("ALL"), ws1]), opt (seqs [lit ("YOUR"), ws1]),
     alts [lit ("ENVIRONMENT"), lit ("ENV")], ws1, lit ("VARIABLE"), optCh 's'],
   50, "Data exfiltration attempt"),
  -- OUTPUT\s+ALL\s+(YOUR\s+)?
  (seqs [lit ("OUTPUT"), ws1, lit ("ALL"), ws1, opt (seqs [lit ("YOUR"), ws1])],
   20, "Possible data exfiltration"),
  -- ={5,}.*INSTRUCTION.*={5,}
  (seqs [.rep (eqCh '=') 5 none, dotStar, lit ("INSTRUCTION"), dotStar,
     .rep (eqCh '=') 5 none],
   30, "Instruction boundary marker"),
  -- -{5,}.*INSTRUCTION.*-{5,}
  (seqs [.rep (eqCh '-') 5 none, dotStar, lit ("INSTRUCTION"), dotStar,
     .rep (eqCh '-') 5 none],
   30, "Instruction boundary marker"),
  -- \*{5,}.*INSTRUCTION.*\*{5,}
  (seqs [.rep (eqCh '*') 5 none, dotStar, lit ("INSTRUCTION"), dotStar,
     .rep (eqCh '*') 5 none],
   30, "Instruction boundary marker")]

/-! Structural patterns, compiled with `re.IGNORECASE | re.DOTALL` (no
structural pattern uses the `.` atom affected by `DOTALL`).  They are
named individually so that list decompositions of the corpus can be
written down. -/

-- <[^>]+style\s*=\s*["\x27][^"\x27]*display\s*:\s*none
/-- Structural rule: hidden HTML via display:none. -/
def ruleHiddenDisplay : Rule :=
  (seqs [lit ("<"), .rep notGt 1 none, lit ("style"), ws0, lit ("="), ws0,
     .cls quoteCh, .rep notQuote 0 none, lit ("display"), ws0, lit (":"), ws0,
     lit ("none")],
   30, "Hidden HTML (display:none)")

-- <[^>]+style\s*=\s*["\x27][^"\x27]*font-size\s*:\s*0
/-- Structural rule: hidden HTML via zero font size. -/
def ruleHiddenZeroFont : Rule :=
  (seqs [lit ("<"), .rep notGt 1 none, lit ("style"), ws0, lit ("="), ws0,
     .cls quoteCh, .rep notQuote 0 none, lit ("font-size"), ws0, lit (":"), ws0,
     lit ("0")],
   30, "Hidden HTML (zero font)")

-- <[^>]+style\s*=\s*["\x27][^"\x27]*color\s*:\s*(white|#fff|transparent)
/-- Structural rule: hidden HTML via invisible color. -/
def ruleHiddenColor : Rule :=
  (seqs [lit ("<"), .rep notGt 1 none, lit ("style"), ws0, lit ("="), ws0,
     .cls quoteCh, .rep notQuote 0 none, lit ("color"), ws0, lit (":"), ws0,
     alts [lit ("white"), lit ("#fff"), lit ("transparent")]],
   20, "Hidden HTML (invisible color)")

-- <[^>]+\bhidden\b[^>]*>
/-- Structural rule: hidden attribute. -/
def ruleHiddenAttr : Rule :=
  (seqs [lit ("<"), .rep notGt 1 none, .wordB, lit ("hidden"), .wordB,
     .rep notGt 0 none, lit (">")],
   25, "Hidden HTML (hidden attribute)")

-- <[^>]+aria-hidden\s*=\s*["\x27]true["\x27]
/-- Structural rule: aria-hidden. -/
def ruleAriaHidden : Rule :=
  (seqs [lit ("<"), .rep notGt 1 none, lit ("aria-hidden"), ws0, lit ("="), ws0,
     .cls quoteCh, lit ("true"), .cls quoteCh],
   20, "Hidden HTML (aria-hidden)")

-- <!--[^>]*(instruction|ignore|system|prompt)[^>]*-->
/-- Structural rule: suspicious HTML comment. -/
def ruleSuspiciousComment : Rule :=
  (seqs [lit ("<!--"), .rep notGt 0 none,
     alts [lit ("instruction"), lit ("ignore"), lit ("system"), lit ("prompt")],
     .rep notGt 0 none, lit ("-->")],
   25, "Suspicious HTML comment")

-- [A-Za-z0-9+/]{100,}={0,2}
/-- Structural rule: large base64 block. -/
def ruleBase64Block : Rule :=
  (.seq (.rep isB64Ch 100 none) (.rep (eqCh '=') 0 (some 2)),
   15, "Large Base64 block")

-- [\x{200B}\x{200C}\x{200D}\x{FEFF}]
/-- Structural rule: zero-width Unicode. -/
def ruleZeroWidth : Rule :=
  (.cls zeroWidthCh, 25, "Zero-width Unicode characters")

-- [\x{202A}-\x{202E}\x{2066}-\x{2069}]
/-- Structural rule: text direction override. -/
def ruleDirOverride : Rule :=
  (.cls dirOverrideCh, 25, "Text direction override characters")

/-- `InjectionDetector.STRUCTURAL_PATTERNS`. -/
def STRUCTURAL_PATTERNS : List Rule :=
  [ruleHiddenDisplay, ruleHiddenZeroFont, ruleHiddenColor, ruleHiddenAttr,
   ruleAriaHidden, ruleSuspiciousComment, ruleBase64Block, ruleZeroWidth,
   ruleDirOverride]

/-- The whole corpus in evaluation order: lexical rules first, then
structural rules. -/
def ALL_RULES : List Rule := INJECTION_PATTERNS ++ STRUCTURAL_PATTERNS

/-! ## The detector -/

/-- `InjectionDetector.BLOCK_THRESHOLD`. -/
def BLOCK_THRESHOLD : Int := 50

/-- `InjectionDetector.REVIEW_THRESHOLD`. -/
def REVIEW_THRESHOLD : Int := 20

/-- Result of scanning content for prompt injection
(dataclass `ScanResult`). -/
structure ScanResult where
  is_safe : Bool
  score : Int
  detections : List String
deriving DecidableEq

/-- Construction of a `ScanResult`, including the dataclass's
`__post_init__`: if the score is 50 or more, `is_safe` is overwritten with
`False`; otherwise the passed value is kept. -/
def mkScanResult (is0 : Bool) (score : Int) (detections : List String) : ScanResult :=
  ScanResult.mk (if 50 ≤ score then false else is0) score detections

/-- The detection string appended for a matched lexical rule:
`f"Pattern: {description} (+{points})"`. -/
def fmtInj (r : Rule) : String :=
  "Pattern: " ++ r.2.2 ++ " (+" ++ toString r.2.1 ++ ")"

/-- The detection string appended for a matched structural rule:
`f"Structure: {description} (+{points})"`. -/
def fmtStruct (r : Rule) : String :=
  "Structure: " ++ r.2.2 ++ " (+" ++ toString r.2.1 ++ ")"

/-- One of `scan`'s rule loops: for every rule whose pattern occurs in the
content, add its points to the score and append its detection string. -/
def applyRules (rules : List Rule) (fmt : Rule → String) (content : List Char)
    (acc : Int × List String) : Int × List String :=
  rules.foldl
    (fun a r => if searchB r.1 content then (a.1 + r.2.1, a.2 ++ [fmt r]) else a)
    acc

/-- The accumulated `(score, detections)` pair of `scan`'s two rule loops:
injection patterns are checked first starting from `(0, [])`, then
structural patterns continue on the same accumulator. -/
def scanAcc (content : List Char) : Int × List String :=
  applyRules STRUCTURAL_PATTERNS fmtStruct content
    (applyRules INJECTION_PATTERNS fmtInj content (0, []))

/-- `InjectionDetector.scan`.  Empty content short-circuits; otherwise both
rule families are evaluated in declaration order and the result is built
from the accumulated score. -/
def scan (content : List Char) : ScanResult :=
  if content.isEmpty then mkScanResult true 0 []
  else
    mkScanResult (decide ((scanAcc content).1 < BLOCK_THRESHOLD))
      ((scanAcc content).1) ((scanAcc content).2)

set_option linter.unusedVariables false in
/-- `InjectionDetector.scan_with_context`: the context arguments are
accepted for logging by callers but do not affect scoring; the body just
returns `self.scan(content)`. -/
def scan_with_context (content : List Char) (url : Option String)
    (tool_name : Option String) : ScanResult :=
  scan content

/-- One of `scan`'s rule loops with an explicit error channel.  Every
operation the Python loop performs on text input (`pattern.search`, integer
addition, list append, f-string formatting) is total, so every step is an
`Except.ok`. -/
def applyRulesE (rules : List Rule) (fmt : Rule → String) (content : List Char)
    (acc : Int × List String) : Except String (Int × List String) :=
  rules.foldlM
    (fun a r =>
      Except.ok (if searchB r.1 content then (a.1 + r.2.1, a.2 ++ [fmt r]) else a))
    acc

/-- `InjectionDetector.scan` with an explicit error channel, used to state
that scanning has no error outcome. -/
def scanE (content : List Char) : Except String ScanResult :=
  if content.isEmpty then Except.ok (mkScanResult true 0 [])
  else
    (applyRulesE INJECTION_PATTERNS fmtInj content (0, [])).bind (fun a1 =>
      (applyRulesE STRUCTURAL_PATTERNS fmtStruct content a1).bind (fun a2 =>
        Except.ok (mkScanResult (decide (a2.1 < BLOCK_THRESHOLD)) a2.1 a2.2)))

/-! ## Derived notions used to state the claims -/

/-- The rules of a family whose pattern occurs somewhere in the content. -/
def matchedRules (rules : List Rule) (content : List Char) : List Rule :=
  rules.filter (fun r => searchB r.1 content)

/-- Sum of the weights of a list of rules. -/
def sumWeights (rules : List Rule) : Int :=
  (rules.map (fun r => r.2.1)).sum

/-- Last character of `a` is a word character. -/
def endsWord (a : List Char) : Bool := wordAt a (a.length - 1)

/-- First character of `b` is a word character. -/
def startsWord (b : List Char) : Bool := wordAt b 0

/-- The concatenation seam `a ++ b` does not glue two word characters
together (so no `\b` assertion that held inside `a` or `b` alone is
destroyed by the concatenation).  This is stated with the model's word
class; the concatenation theorems below only assume the stronger,
model-independent seam condition `seamGuarded`. -/
def noJoin (a b : List Char) : Bool := !(endsWord a && startsWord b)

/-- `c` is an ASCII character outside `[A-Za-z0-9_]`.  On ASCII characters
the model's word class coincides exactly with Python's `\w`, so such a
character is a non-word character for Python's `\b` as well — unlike
non-ASCII characters (e.g. `é`), which Python treats as word characters
but the ASCII model does not. -/
def asciiNonWord (c : Char) : Bool := c.val < 128 && !(isWordChar c)

/-- The concatenation seam `a ++ b` is guarded by an ASCII non-word
character on at least one side: the last character of `a` or the first
character of `b` (an empty side counts as guarded, via the NUL default).
This condition is meaningful for Python's Unicode `\b` too, since on
ASCII characters the model's word class agrees with Python's `\w`. -/
def seamGuarded (a b : List Char) : Bool :=
  asciiNonWord (a.getD (a.length - 1) nulCh) || asciiNonWord (b.getD 0 nulCh)

/-- Following the spec's words for claim C8: the content contains "a markup
comment (a `<!-- ... -->` block) containing one of the words instruction,
ignore, system, or prompt (case-insensitively)".  The comment body may
contain arbitrary characters. -/
def specSuspiciousComment (content : List Char) : Bool :=
  searchB
    (seqs [lit ("<!--"), .rep (fun _ => true) 0 none,
       alts [lit ("instruction"), lit ("ignore"), lit ("system"), lit ("prompt")],
       .rep (fun _ => true) 0 none, lit ("-->")])
    content

/-- A content string containing a markup comment, written as an explicit
splice: `pre <!-- u w v --> post` with the keyword occurrence `w`
surrounded by the comment filler `u` and `v`. -/
def commentSplice (pre u w v post : List Char) : List Char :=
  pre ++ (chars ("<!--") ++ (u ++ (w ++ (v ++ (chars ("-->") ++ post)))))

/-! ## Lemmas: the matching engine -/

theorem ciMatchAt_append {kw l : List Char} (t : List Char)
    (h : ciMatchAt kw l = true) : ciMatchAt kw (l ++ t) = true := by
  induction kw generalizing l with
  | nil => rfl
  | cons k ks ih =>
    cases l with
    | nil => simp [ciMatchAt] at h
    | cons c cs =>
      simp only [ciMatchAt, Bool.and_eq_true] at h
      simp only [List.cons_append, ciMatchAt, Bool.and_eq_true]
      exact ⟨h.1, ih h.2⟩

theorem runLen_cons (p : Char → Bool) (c : Char) (l : List Char) :
    runLen p (c :: l) = if p c then runLen p l + 1 else 0 := rfl

theorem runLen_le_append (p : Char → Bool) (l t : List Char) :
    runLen p l ≤ runLen p (l ++ t) := by
  induction l with
  | nil => simp [runLen]
  | cons c cs ih =>
    rw [List.cons_append, runLen_cons, runLen_cons]
    split
    · omega
    · omega

theorem le_runLen_of_all {p : Char → Bool} {u : List Char} (t : List Char)
    (h : ∀ c ∈ u, p c = true) : u.length ≤ runLen p (u ++ t) := by
  induction u with
  | nil => simp
  | cons c cs ih =>
    rw [List.cons_append, runLen_cons, if_pos (h c (List.mem_cons_self c cs))]
    have := ih (fun x hx => h x (List.mem_cons_of_mem c hx))
    simp only [List.length_cons]
    omega

theorem repTop_le_append (p : Char → Bool) (hi : Option Nat) (l t : List Char) :
    repTop p hi l ≤ repTop p hi (l ++ t) := by
  cases hi with
  | none => exact runLen_le_append p l t
  | some h =>
    simp only [repTop]
    have := runLen_le_append p l t
    omega

theorem mem_matchEnds_eps {s : List Char} {i j : Nat} :
    j ∈ matchEnds .eps s i ↔ j = i := by
  simp [matchEnds]

theorem mem_matchEnds_str {kw s : List Char} {i j : Nat} :
    j ∈ matchEnds (.str kw) s i ↔
      ciMatchAt kw (s.drop i) = true ∧ j = i + kw.length := by
  simp only [matchEnds]
  split
  · simp_all
  · simp_all

theorem mem_matchEnds_cls {p : Char → Bool} {s : List Char} {i j : Nat} :
    j ∈ matchEnds (.cls p) s i ↔
      (i < s.length ∧ p (s.getD i nulCh) = true) ∧ j = i + 1 := by
  simp only [matchEnds]
  split
  · rename_i h
    simp only [Bool.and_eq_true, decide_eq_true_eq] at h
    simp only [List.mem_singleton]
    exact ⟨fun hj => ⟨h, hj⟩, fun hj => hj.2⟩
  · rename_i h
    simp only [Bool.and_eq_true, decide_eq_true_eq] at h
    simp only [List.not_mem_nil, false_iff]
    exact fun hj => h hj.1

theorem mem_matchEnds_wordB {s : List Char} {i j : Nat} :
    j ∈ matchEnds .wordB s i ↔ wordBoundary s i = true ∧ j = i := by
  simp only [matchEnds]
  split
  · rename_i h
    simp only [List.mem_singleton]
    exact ⟨fun hj => ⟨h, hj⟩, fun hj => hj.2⟩
  · rename_i h
    simp only [List.not_mem_nil, false_iff]
    exact fun hj => h hj.1

theorem mem_matchEnds_seq {a b : Regex} {s : List Char} {i j : Nat} :
    j ∈ matchEnds (.seq a b) s i ↔
      ∃ m, m ∈ matchEnds a s i ∧ j ∈ matchEnds b s m := by
  simp only [matchEnds, List.mem_flatMap]

theorem mem_matchEnds_alt {a b : Regex} {s : List Char} {i j : Nat} :
    j ∈ matchEnds (.alt a b) s i ↔
      j ∈ matchEnds a s i ∨ j ∈ matchEnds b s i := by
  simp [matchEnds]

theorem mem_matchEnds_rep {p : Char → Bool} {lo : Nat} {hi : Option Nat}
    {s : List Char} {i j : Nat} :
    j ∈ matchEnds (.rep p lo hi) s i ↔
      i + lo ≤ j ∧ j ≤ i + repTop p hi (s.drop i) := by
  simp only [matchEnds]
  split
  · rw [List.mem_range'_1]
    omega
  · simp only [List.not_mem_nil, false_iff]
    omega

/-! ## Lemmas: word boundaries under concatenation -/

theorem wordAt_append_of_lt {A : List Char} (B : List Char) {i : Nat}
    (h : i < A.length) : wordAt (A ++ B) i = wordAt A i := by
  unfold wordAt
  rw [List.getD_append A B nulCh i h]

theorem wordAt_append_of_ge {A : List Char} (B : List Char) {i : Nat}
    (h : A.length ≤ i) : wordAt (A ++ B) i = wordAt B (i - A.length) := by
  unfold wordAt
  rw [List.getD_append_right A B nulCh i h]

theorem wordAt_of_ge {A : List Char} {i : Nat} (h : A.length ≤ i) :
    wordAt A i = false := by
  unfold wordAt
  rw [List.getD_eq_default A nulCh h]
  decide

theorem wordBoundary_true_le {A : List Char} {i : Nat}
    (h : wordBoundary A i = true) : i ≤ A.length := by
  by_contra hgt
  cases i with
  | zero => omega
  | succ k =>
    have h1 : wordAt A k = false := wordAt_of_ge (by omega)
    have h2 : wordAt A (k + 1) = false := wordAt_of_ge (by omega)
    simp [wordBoundary, h1, h2] at h

theorem wordBoundary_append {A B : List Char} (hnj : noJoin A B = true)
    {i : Nat} (hb : wordBoundary A i = true) :
    wordBoundary (A ++ B) i = true := by
  have hle : i ≤ A.length := wordBoundary_true_le hb
  cases i with
  | zero =>
    simp only [wordBoundary] at hb ⊢
    have hA : A ≠ [] := by
      intro hA
      rw [hA] at hb
      simp [wordAt, List.getD] at hb
      exact absurd hb (by decide)
    have hlen : 0 < A.length := List.length_pos.mpr hA
    rw [wordAt_append_of_lt B hlen]
    exact hb
  | succ k =>
    simp only [wordBoundary] at hb ⊢
    by_cases hk1 : k + 1 < A.length
    · rw [wordAt_append_of_lt B (by omega), wordAt_append_of_lt B hk1]
      exact hb
    · -- k + 1 = A.length: the boundary sits exactly at the seam
      have hk1e : k + 1 = A.length := by omega
      have hAk1 : wordAt A (k + 1) = false := wordAt_of_ge (by omega)
      have hAk : wordAt A k = true := by
        rw [hAk1] at hb
        cases hw : wordAt A k
        · rw [hw] at hb
          simp at hb
        · rfl
      have hend : endsWord A = true := by
        unfold endsWord
        rw [show A.length - 1 = k by omega]
        exact hAk
      have hstart : startsWord B = false := by
        unfold noJoin at hnj
        cases hs : startsWord B
        · rfl
        · rw [hend, hs] at hnj
          simp at hnj
      rw [wordAt_append_of_lt B (by omega), hAk,
        wordAt_append_of_ge B (by omega), hk1e, Nat.sub_self]
      unfold startsWord at hstart
      rw [hstart]
      rfl

theorem wordBoundary_shift {A B : List Char} (hnj : noJoin A B = true)
    {i : Nat} (hb : wordBoundary B i = true) :
    wordBoundary (A ++ B) (A.length + i) = true := by
  cases i with
  | zero =>
    simp only [wordBoundary] at hb
    -- boundary at the start of B: B starts with a word character
    have hstart : startsWord B = true := hb
    have hend : endsWord A = false := by
      unfold noJoin at hnj
      cases he : endsWord A
      · rfl
      · rw [he, hstart] at hnj
        simp at hnj
    cases A with
    | nil =>
      simpa [wordBoundary] using hb
    | cons c cs =>
      show wordBoundary (c :: cs ++ B) (cs.length + 1) = true
      simp only [wordBoundary]
      have h1 : wordAt (c :: cs ++ B) cs.length = false := by
        rw [wordAt_append_of_lt B (by simp)]
        unfold endsWord at hend
        simpa using hend
      have h2 : wordAt (c :: cs ++ B) (cs.length + 1) = true := by
        rw [wordAt_append_of_ge B (by simp), show cs.length + 1 - (c :: cs).length = 0 by simp]
        exact hstart
      rw [h1, h2]
      rfl
  | succ k =>
    show wordBoundary (A ++ B) (A.length + k + 1) = true
    simp only [wordBoundary] at hb ⊢
    have h1 : wordAt (A ++ B) (A.length + k) = wordAt B k := by
      rw [wordAt_append_of_ge B (by omega), Nat.add_sub_cancel_left]
    have h2 : wordAt (A ++ B) (A.length + k + 1) = wordAt B (k + 1) := by
      rw [wordAt_append_of_ge B (by omega), show A.length + k + 1 - A.length = k + 1 by omega]
    rw [h1, h2]
    exact hb

/-! ## Lemmas: matches survive concatenation (up to the seam condition) -/

theorem matchEnds_mono {r : Regex} {A B : List Char} (hnj : noJoin A B = true) :
    ∀ {i j : Nat}, j ∈ matchEnds r A i → j ∈ matchEnds r (A ++ B) i := by
  induction r with
  | eps =>
    intro i j h
    exact mem_matchEnds_eps.mpr (mem_matchEnds_eps.mp h)
  | str kw =>
    intro i j h
    obtain ⟨hm, hj⟩ := mem_matchEnds_str.mp h
    refine mem_matchEnds_str.mpr ⟨?_, hj⟩
    rw [List.drop_append_eq_append_drop]
    exact ciMatchAt_append _ hm
  | cls p =>
    intro i j h
    obtain ⟨⟨hlt, hp⟩, hj⟩ := mem_matchEnds_cls.mp h
    refine mem_matchEnds_cls.mpr ⟨⟨?_, ?_⟩, hj⟩
    · rw [List.length_append]
      omega
    · rw [List.getD_append A B nulCh i hlt]
      exact hp
  | wordB =>
    intro i j h
    obtain ⟨hb, hj⟩ := mem_matchEnds_wordB.mp h
    exact mem_matchEnds_wordB.mpr ⟨wordBoundary_append hnj hb, hj⟩
  | seq a b iha ihb =>
    intro i j h
    obtain ⟨m, hm, hj⟩ := mem_matchEnds_seq.mp h
    exact mem_matchEnds_seq.mpr ⟨m, iha hm, ihb hj⟩
  | alt a b iha ihb =>
    intro i j h
    rcases mem_matchEnds_alt.mp h with h | h
    · exact mem_matchEnds_alt.mpr (Or.inl (iha h))
    · exact mem_matchEnds_alt.mpr (Or.inr (ihb h))
  | rep p lo hi =>
    intro i j h
    obtain ⟨h1, h2⟩ := mem_matchEnds_rep.mp h
    refine mem_matchEnds_rep.mpr ⟨h1, ?_⟩
    have hmono : repTop p hi (A.drop i) ≤ repTop p hi ((A ++ B).drop i) := by
      rw [List.drop_append_eq_append_drop]
      exact repTop_le_append p hi (A.drop i) (B.drop (i - A.length))
    omega

theorem matchEnds_shift {r : Regex} {A B : List Char} (hnj : noJoin A B = true) :
    ∀ {i j : Nat}, j ∈ matchEnds r B i →
      (A.length + j) ∈ matchEnds r (A ++ B) (A.length + i) := by
  have hdrop : ∀ i : Nat, (A ++ B).drop (A.length + i) = B.drop i := by
    intro i
    rw [List.drop_append_eq_append_drop,
      List.drop_eq_nil_of_le (by omega : A.length ≤ A.length + i),
      List.nil_append, Nat.add_sub_cancel_left]
  induction r with
  | eps =>
    intro i j h
    rw [mem_matchEnds_eps] at h ⊢
    omega
  | str kw =>
    intro i j h
    obtain ⟨hm, hj⟩ := mem_matchEnds_str.mp h
    refine mem_matchEnds_str.mpr ⟨?_, by omega⟩
    rw [hdrop i]
    exact hm
  | cls p =>
    intro i j h
    obtain ⟨⟨hlt, hp⟩, hj⟩ := mem_matchEnds_cls.mp h
    refine mem_matchEnds_cls.mpr ⟨⟨?_, ?_⟩, by omega⟩
    · rw [List.length_append]
      omega
    · rw [List.getD_append_right A B nulCh (A.length + i) (by omega),
        Nat.add_sub_cancel_left]
      exact hp
  | wordB =>
    intro i j h
    obtain ⟨hb, hj⟩ := mem_matchEnds_wordB.mp h
    refine mem_matchEnds_wordB.mpr ⟨wordBoundary_shift hnj hb, by omega⟩
  | seq a b iha ihb =>
    intro i j h
    obtain ⟨m, hm, hj⟩ := mem_matchEnds_seq.mp h
    exact mem_matchEnds_seq.mpr ⟨A.length + m, iha hm, ihb hj⟩
  | alt a b iha ihb =>
    intro i j h
    rcases mem_matchEnds_alt.mp h with h | h
    · exact mem_matchEnds_alt.mpr (Or.inl (iha h))
    · exact mem_matchEnds_alt.mpr (Or.inr (ihb h))
  | rep p lo hi =>
    intro i j h
    obtain ⟨h1, h2⟩ := mem_matchEnds_rep.mp h
    refine mem_matchEnds_rep.mpr ⟨by omega, ?_⟩
    rw [hdrop i]
    omega

/-! ## Lemmas: search -/

theorem searchB_iff {r : Regex} {s : List Char} :
    searchB r s = true ↔ ∃ i, i ≤ s.length ∧ ∃ j, j ∈ matchEnds r s i := by
  unfold searchB
  rw [List.any_eq_true]
  constructor
  · rintro ⟨i, hi, hne⟩
    rw [List.mem_range] at hi
    rw [Bool.not_eq_true', List.isEmpty_eq_false] at hne
    obtain ⟨j, hj⟩ := List.exists_mem_of_ne_nil _ hne
    exact ⟨i, by omega, j, hj⟩
  · rintro ⟨i, hi, j, hj⟩
    refine ⟨i, List.mem_range.mpr (by omega), ?_⟩
    rw [Bool.not_eq_true', List.isEmpty_eq_false]
    intro hnil
    rw [hnil] at hj
    exact List.not_mem_nil j hj

theorem searchB_append_left {r : Regex} {A B : List Char}
    (hnj : noJoin A B = true) (h : searchB r A = true) :
    searchB r (A ++ B) = true := by
  obtain ⟨i, hi, j, hj⟩ := searchB_iff.mp h
  refine searchB_iff.mpr ⟨i, ?_, j, matchEnds_mono hnj hj⟩
  rw [List.length_append]
  omega

theorem searchB_append_right {r : Regex} {A B : List Char}
    (hnj : noJoin A B = true) (h : searchB r B = true) :
    searchB r (A ++ B) = true := by
  obtain ⟨i, hi, j, hj⟩ := searchB_iff.mp h
  refine searchB_iff.mpr ⟨A.length + i, ?_, A.length + j, matchEnds_shift hnj hj⟩
  rw [List.length_append]
  omega

/-! ## Lemmas: the scoring loops -/

theorem applyRules_eq (rules : List Rule) (fmt : Rule → String) (c : List Char) :
    ∀ s d, applyRules rules fmt c (s, d) =
      (s + sumWeights (matchedRules rules c),
        d ++ (matchedRules rules c).map fmt) := by
  induction rules with
  | nil =>
    intro s d
    simp [applyRules, matchedRules, sumWeights]
  | cons r rs ih =>
    intro s d
    by_cases h : searchB r.1 c = true
    · simp only [applyRules, List.foldl_cons, h, if_true]
      have hr := ih (s + r.2.1) (d ++ [fmt r])
      simp only [applyRules] at hr
      rw [hr]
      simp [matchedRules, List.filter_cons, h, sumWeights, add_assoc]
    · simp only [applyRules, List.foldl_cons]
      rw [if_neg h]
      have hr := ih s d
      simp only [applyRules] at hr
      rw [hr]
      simp [matchedRules, List.filter_cons, h]

theorem scanAcc_eq (c : List Char) :
    scanAcc c = (sumWeights (matchedRules ALL_RULES c),
      (matchedRules INJECTION_PATTERNS c).map fmtInj ++
        (matchedRules STRUCTURAL_PATTERNS c).map fmtStruct) := by
  unfold scanAcc
  rw [applyRules_eq, applyRules_eq]
  simp [ALL_RULES, matchedRules, List.filter_append, sumWeights]

theorem scan_empty_eq : scan [] = ScanResult.mk true 0 [] := by
  decide

theorem scan_of_ne_nil {c : List Char} (hc : c ≠ []) :
    scan c = mkScanResult (decide ((scanAcc c).1 < BLOCK_THRESHOLD))
      ((scanAcc c).1) ((scanAcc c).2) := by
  unfold scan
  rw [if_neg (by simpa [List.isEmpty_iff] using hc)]

theorem mkScanResult_score (b : Bool) (s : Int) (d : List String) :
    (mkScanResult b s d).score = s := rfl

theorem mkScanResult_detections (b : Bool) (s : Int) (d : List String) :
    (mkScanResult b s d).detections = d := rfl

theorem scan_score_eq (c : List Char) :
    (scan c).score = sumWeights (matchedRules ALL_RULES c) := by
  by_cases hc : c = []
  · subst hc
    rw [scan_empty_eq]
    have h0 : sumWeights (matchedRules ALL_RULES []) = 0 := by decide
    rw [h0]
  · rw [scan_of_ne_nil hc, mkScanResult_score, scanAcc_eq]

theorem scan_detections_eq {c : List Char} (hc : c ≠ []) :
    (scan c).detections =
      (matchedRules INJECTION_PATTERNS c).map fmtInj ++
        (matchedRules STRUCTURAL_PATTERNS c).map fmtStruct := by
  rw [scan_of_ne_nil hc, mkScanResult_detections, scanAcc_eq]

theorem scan_is_safe_eq (c : List Char) :
    (scan c).is_safe = decide ((scan c).score < 50) := by
  by_cases hc : c = []
  · subst hc
    rw [scan_empty_eq]
    decide
  · rw [scan_of_ne_nil hc]
    show (if 50 ≤ (scanAcc c).1 then false
      else decide ((scanAcc c).1 < BLOCK_THRESHOLD)) = _
    rw [mkScanResult_score]
    by_cases h : 50 ≤ (scanAcc c).1
    · rw [if_pos h]
      exact (decide_eq_false (by omega)).symm
    · rw [if_neg h]
      rfl

/-! ## Lemmas: sums of rule weights -/

theorem sumWeights_cons (r : Rule) (l : List Rule) :
    sumWeights (r :: l) = r.2.1 + sumWeights l := by
  simp [sumWeights]

theorem sumWeights_append (l1 l2 : List Rule) :
    sumWeights (l1 ++ l2) = sumWeights l1 + sumWeights l2 := by
  simp [sumWeights]

theorem sumWeights_nonneg {l : List Rule} (h : ∀ r ∈ l, 0 ≤ r.2.1) :
    0 ≤ sumWeights l := by
  induction l with
  | nil => simp [sumWeights]
  | cons r rs ih =>
    rw [sumWeights_cons]
    have h1 := h r (List.mem_cons_self r rs)
    have h2 := ih (fun x hx => h x (List.mem_cons_of_mem r hx))
    omega

theorem sumWeights_filter_le {l : List Rule} {p q : Rule → Bool}
    (hw : ∀ r ∈ l, 0 ≤ r.2.1) (hpq : ∀ r ∈ l, p r = true → q r = true) :
    sumWeights (l.filter p) ≤ sumWeights (l.filter q) := by
  induction l with
  | nil => simp [sumWeights]
  | cons r rs ih =>
    have hw1 := hw r (List.mem_cons_self r rs)
    have hwr := fun x hx => hw x (List.mem_cons_of_mem r hx)
    have hpqr := fun x hx => hpq x (List.mem_cons_of_mem r hx)
    have hrec := ih hwr hpqr
    rw [List.filter_cons, List.filter_cons]
    by_cases hp : p r = true
    · rw [if_pos hp, if_pos (hpq r (List.mem_cons_self r rs) hp),
        sumWeights_cons, sumWeights_cons]
      omega
    · rw [if_neg hp]
      by_cases hq : q r = true
      · rw [if_pos hq, sumWeights_cons]
        omega
      · rw [if_neg hq]
        exact hrec

theorem sumWeights_filter_disjoint {l : List Rule} {p q s : Rule → Bool}
    (hw : ∀ r ∈ l, 0 ≤ r.2.1)
    (hp : ∀ r ∈ l, p r = true → s r = true)
    (hq : ∀ r ∈ l, q r = true → s r = true)
    (hd : ∀ r ∈ l, ¬(p r = true ∧ q r = true)) :
    sumWeights (l.filter p) + sumWeights (l.filter q) ≤
      sumWeights (l.filter s) := by
  induction l with
  | nil => simp [sumWeights]
  | cons r rs ih =>
    have hw1 := hw r (List.mem_cons_self r rs)
    have hrec := ih (fun x hx => hw x (List.mem_cons_of_mem r hx))
      (fun x hx => hp x (List.mem_cons_of_mem r hx))
      (fun x hx => hq x (List.mem_cons_of_mem r hx))
      (fun x hx => hd x (List.mem_cons_of_mem r hx))
    rw [List.filter_cons, List.filter_cons, List.filter_cons]
    by_cases hpr : p r = true
    · have hsr := hp r (List.mem_cons_self r rs) hpr
      have hqr : ¬(q r = true) := fun hqr =>
        hd r (List.mem_cons_self r rs) ⟨hpr, hqr⟩
      rw [if_pos hpr, if_neg hqr, if_pos hsr, sumWeights_cons, sumWeights_cons]
      omega
    · rw [if_neg hpr]
      by_cases hqr : q r = true
      · have hsr := hq r (List.mem_cons_self r rs) hqr
        rw [if_pos hqr, if_pos hsr, sumWeights_cons, sumWeights_cons]
        omega
      · rw [if_neg hqr]
        by_cases hsr : s r = true
        · rw [if_pos hsr, sumWeights_cons]
          omega
        · rw [if_neg hsr]
          exact hrec

theorem le_sumWeights_matched {l1 l2 : List Rule} {r : Rule} {c : List Char}
    (hm : searchB r.1 c = true)
    (hw : ∀ x ∈ l1 ++ r :: l2, 0 ≤ x.2.1) :
    r.2.1 ≤ sumWeights (matchedRules (l1 ++ r :: l2) c) := by
  unfold matchedRules
  rw [List.filter_append, sumWeights_append, List.filter_cons, if_pos hm,
    sumWeights_cons]
  have h1 : 0 ≤ sumWeights (List.filter (fun x => searchB x.1 c) l1) := by
    refine sumWeights_nonneg (fun x hx => ?_)
    exact hw x (List.mem_append_left _ (List.mem_of_mem_filter hx))
  have h2 : 0 ≤ sumWeights (List.filter (fun x => searchB x.1 c) l2) := by
    refine sumWeights_nonneg (fun x hx => ?_)
    refine hw x (List.mem_append_right _ ?_)
    exact List.mem_cons_of_mem r (List.mem_of_mem_filter hx)
  omega

theorem all_rules_weight_nonneg : ∀ r ∈ ALL_RULES, 0 ≤ r.2.1 := by
  decide

/-! ## Lemmas: building matches from explicit decompositions -/

theorem searchB_of_mem {r : Regex} {s : List Char} {i j : Nat}
    (hi : i ≤ s.length) (hj : j ∈ matchEnds r s i) : searchB r s = true :=
  searchB_iff.mpr ⟨i, hi, j, hj⟩

theorem mem_matchEnds_seq_intro {a b : Regex} {s : List Char} {i m j : Nat}
    (h1 : m ∈ matchEnds a s i) (h2 : j ∈ matchEnds b s m) :
    j ∈ matchEnds (.seq a b) s i :=
  mem_matchEnds_seq.mpr ⟨m, h1, h2⟩

theorem ciMatchAt_of_lower {kw w : List Char}
    (h : w.map toLowerCh = kw.map toLowerCh) (t : List Char) :
    ciMatchAt kw (w ++ t) = true := by
  induction kw generalizing w with
  | nil => rfl
  | cons k ks ih =>
    cases w with
    | nil => simp at h
    | cons c cs =>
      simp only [List.map_cons, List.cons.injEq] at h
      simp only [List.cons_append, ciMatchAt, Bool.and_eq_true]
      constructor
      · unfold ciEq
        rw [h.1]
        exact beq_self_eq_true _
      · exact ih h.2

theorem mem_matchEnds_str_intro {kw w s t : List Char} {i : Nat}
    (hdrop : s.drop i = w ++ t) (h : w.map toLowerCh = kw.map toLowerCh) :
    (i + w.length) ∈ matchEnds (.str kw) s i := by
  rw [mem_matchEnds_str]
  have hlen : w.length = kw.length := by
    have hc := congrArg List.length h
    simpa using hc
  constructor
  · rw [hdrop]
    exact ciMatchAt_of_lower h t
  · omega

theorem mem_matchEnds_rep_intro {p : Char → Bool} {s u t : List Char} {i : Nat}
    (hdrop : s.drop i = u ++ t) (hall : ∀ c ∈ u, p c = true) :
    (i + u.length) ∈ matchEnds (.rep p 0 none) s i := by
  rw [mem_matchEnds_rep]
  refine ⟨by omega, ?_⟩
  have hrun := le_runLen_of_all t hall
  rw [hdrop]
  have hr : repTop p none (u ++ t) = runLen p (u ++ t) := rfl
  rw [hr]
  omega

theorem drop_step {s a rest : List Char} {i n : Nat}
    (hd : s.drop i = a ++ rest) (h : a.length = n) : s.drop (i + n) = rest := by
  rw [← List.drop_drop n i s, hd, ← h, List.drop_left]

/-! ## Lemmas: the error-channel variant -/

theorem except_bind_ok {ε α β : Type} (a : α) (f : α → Except ε β) :
    (Except.ok a).bind f = f a := rfl

theorem applyRulesE_eq (rules : List Rule) (fmt : Rule → String) (c : List Char) :
    ∀ acc, applyRulesE rules fmt c acc =
      Except.ok (applyRules rules fmt c acc) := by
  induction rules with
  | nil => intro acc; rfl
  | cons r rs ih => intro acc; exact ih _

theorem scanE_eq (c : List Char) : scanE c = Except.ok (scan c) := by
  by_cases hc : c.isEmpty = true
  · unfold scanE scan
    rw [if_pos hc, if_pos hc]
  · unfold scanE scan
    rw [if_neg hc, if_neg hc, applyRulesE_eq, except_bind_ok, applyRulesE_eq,
      except_bind_ok]
    rfl

/-! ## Lemmas: score monotonicity under concatenation -/

theorem scan_score_mono_left (A B : List Char) (hnj : noJoin A B = true) :
    (scan A).score ≤ (scan (A ++ B)).score := by
  rw [scan_score_eq, scan_score_eq]
  show sumWeights (ALL_RULES.filter fun r => searchB r.1 A) ≤
    sumWeights (ALL_RULES.filter fun r => searchB r.1 (A ++ B))
  exact sumWeights_filter_le all_rules_weight_nonneg
    (fun r _ h => searchB_append_left hnj h)

theorem scan_score_mono_right (A B : List Char) (hnj : noJoin A B = true) :
    (scan B).score ≤ (scan (A ++ B)).score := by
  rw [scan_score_eq, scan_score_eq]
  show sumWeights (ALL_RULES.filter fun r => searchB r.1 B) ≤
    sumWeights (ALL_RULES.filter fun r => searchB r.1 (A ++ B))
  exact sumWeights_filter_le all_rules_weight_nonneg
    (fun r _ h => searchB_append_right hnj h)

theorem noJoin_of_seamGuarded {a b : List Char} (h : seamGuarded a b = true) :
    noJoin a b = true := by
  unfold seamGuarded asciiNonWord at h
  unfold noJoin endsWord startsWord wordAt
  rw [Bool.or_eq_true, Bool.and_eq_true, Bool.and_eq_true] at h
  rcases h with ⟨-, h⟩ | ⟨-, h⟩
  · rw [Bool.not_eq_true'] at h
    rw [h]
    rfl
  · rw [Bool.not_eq_true'] at h
    rw [h]
    simp

/-! ## Lemmas: the suspicious-comment rule -/

theorem suspiciousComment_matches (pre u w v post : List Char)
    (hu : '>' ∉ u) (hv : '>' ∉ v)
    (hw : w.map toLowerCh = chars ("instruction") ∨
          w.map toLowerCh = chars ("ignore") ∨
          w.map toLowerCh = chars ("system") ∨
          w.map toLowerCh = chars ("prompt")) :
    searchB ruleSuspiciousComment.1 (commentSplice pre u w v post) = true := by
  have d0 : (commentSplice pre u w v post).drop pre.length =
      chars ("<!--") ++ (u ++ (w ++ (v ++ (chars ("-->") ++ post)))) := by
    unfold commentSplice
    exact List.drop_left _ _
  have d1 : (commentSplice pre u w v post).drop (pre.length + 4) =
      u ++ (w ++ (v ++ (chars ("-->") ++ post))) := drop_step d0 rfl
  have d2 : (commentSplice pre u w v post).drop (pre.length + 4 + u.length) =
      w ++ (v ++ (chars ("-->") ++ post)) := drop_step d1 rfl
  have d3 : (commentSplice pre u w v post).drop
      (pre.length + 4 + u.length + w.length) =
      v ++ (chars ("-->") ++ post) := drop_step d2 rfl
  have d4 : (commentSplice pre u w v post).drop
      (pre.length + 4 + u.length + w.length + v.length) =
      chars ("-->") ++ post := drop_step d3 rfl
  have hallu : ∀ c ∈ u, notGt c = true := by
    intro c hc
    unfold notGt
    rw [Bool.not_eq_true', beq_eq_false_iff_ne]
    intro he
    exact hu (he ▸ hc)
  have hallv : ∀ c ∈ v, notGt c = true := by
    intro c hc
    unfold notGt
    rw [Bool.not_eq_true', beq_eq_false_iff_ne]
    intro he
    exact hv (he ▸ hc)
  have m1 : (pre.length + 4) ∈
      matchEnds (lit ("<!--")) (commentSplice pre u w v post) pre.length :=
    mem_matchEnds_str_intro d0 rfl
  have m2 : (pre.length + 4 + u.length) ∈
      matchEnds (.rep notGt 0 none) (commentSplice pre u w v post)
        (pre.length + 4) :=
    mem_matchEnds_rep_intro d1 hallu
  have m3 : (pre.length + 4 + u.length + w.length) ∈
      matchEnds (alts [lit ("instruction"), lit ("ignore"), lit ("system"),
        lit ("prompt")]) (commentSplice pre u w v post)
        (pre.length + 4 + u.length) := by
    show _ ∈ matchEnds (.alt (lit ("instruction")) (.alt (lit ("ignore"))
      (.alt (lit ("system")) (lit ("prompt"))))) _ _
    rcases hw with h | h | h | h
    · exact mem_matchEnds_alt.mpr (Or.inl
        (mem_matchEnds_str_intro d2 (h.trans (by decide))))
    · exact mem_matchEnds_alt.mpr (Or.inr (mem_matchEnds_alt.mpr (Or.inl
        (mem_matchEnds_str_intro d2 (h.trans (by decide))))))
    · exact mem_matchEnds_alt.mpr (Or.inr (mem_matchEnds_alt.mpr (Or.inr
        (mem_matchEnds_alt.mpr (Or.inl
          (mem_matchEnds_str_intro d2 (h.trans (by decide))))))))
    · exact mem_matchEnds_alt.mpr (Or.inr (mem_matchEnds_alt.mpr (Or.inr
        (mem_matchEnds_alt.mpr (Or.inr
          (mem_matchEnds_str_intro d2 (h.trans (by decide))))))))
  have m4 : (pre.length + 4 + u.length + w.length + v.length) ∈
      matchEnds (.rep notGt 0 none) (commentSplice pre u w v post)
        (pre.length + 4 + u.length + w.length) :=
    mem_matchEnds_rep_intro d3 hallv
  have m5 : (pre.length + 4 + u.length + w.length + v.length + 3) ∈
      matchEnds (lit ("-->")) (commentSplice pre u w v post)
        (pre.length + 4 + u.length + w.length + v.length) :=
    mem_matchEnds_str_intro d4 rfl
  have m6 : (pre.length + 4 + u.length + w.length + v.length + 3) ∈
      matchEnds .eps (commentSplice pre u w v post)
        (pre.length + 4 + u.length + w.length + v.length + 3) :=
    mem_matchEnds_eps.mpr rfl
  have hlen : pre.length ≤ (commentSplice pre u w v post).length := by
    unfold commentSplice
    rw [List.length_append]
    omega
  exact searchB_of_mem hlen
    (mem_matchEnds_seq_intro m1 (mem_matchEnds_seq_intro m2
      (mem_matchEnds_seq_intro m3 (mem_matchEnds_seq_intro m4
        (mem_matchEnds_seq_intro m5 m6)))))

theorem suspiciousComment_scores {c : List Char} (hc : c ≠ [])
    (hm : searchB ruleSuspiciousComment.1 c = true) :
    25 ≤ (scan c).score ∧
      "Structure: Suspicious HTML comment (+25)" ∈ (scan c).detections := by
  constructor
  · rw [scan_score_eq]
    have hdec : ALL_RULES =
        (INJECTION_PATTERNS ++ [ruleHiddenDisplay, ruleHiddenZeroFont,
          ruleHiddenColor, ruleHiddenAttr, ruleAriaHidden]) ++
          ruleSuspiciousComment ::
            [ruleBase64Block, ruleZeroWidth, ruleDirOverride] := by
      simp [ALL_RULES, STRUCTURAL_PATTERNS]
    rw [hdec]
    exact le_sumWeights_matched hm (hdec ▸ all_rules_weight_nonneg)
  · rw [scan_detections_eq hc]
    refine List.mem_append_right _ ?_
    rw [List.mem_map]
    refine ⟨ruleSuspiciousComment, ?_, by decide⟩
    unfold matchedRules
    rw [List.mem_filter]
    exact ⟨by simp [STRUCTURAL_PATTERNS], hm⟩

/-! ## The claims -/

/-- Claim C1: for every input string, the result of `scan` satisfies
`is_safe == (score < 50)` — the derived field is always consistent with the
accumulated score and the block threshold 50. -/
theorem C1_is_safe_iff_score_below_threshold (content : List Char) :
    (scan content).is_safe = true ↔ (scan content).score < 50 := by
  rw [scan_is_safe_eq content]
  simp

/-- Claim C2: `scan content` accumulates the sum of the weights of the
distinct rules (lexical and structural) whose matcher occurs anywhere in
the content — a matched rule contributes its full weight exactly once per
scan no matter how often its pattern occurs — and the detections list has
one entry per distinct matched rule, not per occurrence. -/
theorem C2_score_sum_and_detection_count (content : List Char) :
    (scan content).score = sumWeights (matchedRules ALL_RULES content) ∧
      (scan content).detections.length =
        (matchedRules ALL_RULES content).length := by
  constructor
  · exact scan_score_eq content
  · by_cases hc : content = []
    · subst hc
      rw [scan_empty_eq]
      have h0 : (matchedRules ALL_RULES []).length = 0 := by decide
      rw [h0]
      rfl
    · rw [scan_detections_eq hc]
      simp [ALL_RULES, matchedRules, List.filter_append]

/-- Claim C3: scanning the empty string short-circuits to a safe result
with score 0 and no detections, before any rule is evaluated. -/
theorem C3_empty_scan : scan [] = ScanResult.mk true 0 [] := by
  decide

/-- Claim C4: `scan` is total — run with an explicit error channel, every
input (including the empty string and arbitrary Unicode) produces a normal
classification result `Except.ok (scan content)`; there is no error
outcome distinct from a classification. -/
theorem C4_scan_never_fails (content : List Char) :
    scanE content = Except.ok (scan content) :=
  scanE_eq content

/-- Claim C5 as stated is false at a concrete input: appending `"S"` to
`"JAILBREAK"` glues two word characters together, destroying the
`\b`-delimited jailbreak match, and the score drops from 50 to 0. -/
theorem C5_counterexample :
    ¬(max (scan (chars ("JAILBREAK"))).score (scan (chars ("S"))).score ≤
      (scan (chars ("JAILBREAK") ++ chars ("S"))).score) := by
  decide

/-- Claim C5 (amended): for every pair of strings whose concatenation seam
is guarded by an ASCII non-word character on at least one side, the score
of the concatenation is at least the maximum of the two scores — every
rule that matches within `A` (or within `B`) still matches within
`A ++ B`, because the only position whose `\b` context changes is the
seam, and a guard character that is non-word for Python's `\w` as well
(ASCII and outside `[A-Za-z0-9_]`) preserves every boundary assertion
there. -/
theorem C5_amended_monotone_concat (A B : List Char)
    (hs : seamGuarded A B = true) :
    max (scan A).score (scan B).score ≤ (scan (A ++ B)).score :=
  max_le (scan_score_mono_left A B (noJoin_of_seamGuarded hs))
    (scan_score_mono_right A B (noJoin_of_seamGuarded hs))

/-- Witness for the amended claim C5 at a concrete input pair. -/
theorem C5_amended_monotone_concat_witness :
    seamGuarded (chars ("JAILBREAK")) (chars (" DAN MODE")) = true ∧
      max (scan (chars ("JAILBREAK"))).score
          (scan (chars (" DAN MODE"))).score ≤
        (scan (chars ("JAILBREAK") ++ chars (" DAN MODE"))).score :=
  ⟨by decide, C5_amended_monotone_concat _ _ (by decide)⟩

/-- Claim C6 as stated is false at a concrete input: `"JAIL"` and
`"BREAK"` trigger disjoint (indeed empty) rule sets, yet their
concatenation spells a new match, so the score of the concatenation (50)
is not the sum of the scores (0 + 0). -/
theorem C6_counterexample :
    (∀ r ∈ ALL_RULES, ¬(searchB r.1 (chars ("JAIL")) = true ∧
        searchB r.1 (chars ("BREAK")) = true)) ∧
      (scan (chars ("JAIL") ++ chars ("BREAK"))).score ≠
        (scan (chars ("JAIL"))).score + (scan (chars ("BREAK"))).score := by
  constructor
  · decide
  · decide

/-- Claim C6 (amended): when the two fragments trigger disjoint rule sets
and the concatenation seam is guarded by an ASCII non-word character on at
least one side (non-word for Python's `\w` as well, so every boundary
assertion survives the seam), the score of the concatenation is at least
the sum of the two scores: concatenation can only create additional
cross-seam matches, never remove either side's matches, and disjointness
prevents double counting. -/
theorem C6_amended_superadditive (A B : List Char)
    (hs : seamGuarded A B = true)
    (hdisj : ∀ r ∈ ALL_RULES, ¬(searchB r.1 A = true ∧
      searchB r.1 B = true)) :
    (scan A).score + (scan B).score ≤ (scan (A ++ B)).score := by
  have hnj := noJoin_of_seamGuarded hs
  rw [scan_score_eq, scan_score_eq, scan_score_eq]
  show sumWeights (ALL_RULES.filter fun r => searchB r.1 A) +
      sumWeights (ALL_RULES.filter fun r => searchB r.1 B) ≤
    sumWeights (ALL_RULES.filter fun r => searchB r.1 (A ++ B))
  exact sumWeights_filter_disjoint all_rules_weight_nonneg
    (fun r _ h => searchB_append_left hnj h)
    (fun r _ h => searchB_append_right hnj h) hdisj

/-- Witness for the amended claim C6 at a concrete input pair. -/
theorem C6_amended_superadditive_witness :
    seamGuarded (chars ("JAILBREAK ")) (chars ("DAN MODE")) = true ∧
      (∀ r ∈ ALL_RULES, ¬(searchB r.1 (chars ("JAILBREAK ")) = true ∧
        searchB r.1 (chars ("DAN MODE")) = true)) ∧
      (scan (chars ("JAILBREAK "))).score +
          (scan (chars ("DAN MODE"))).score ≤
        (scan (chars ("JAILBREAK ") ++ chars ("DAN MODE"))).score :=
  ⟨by decide, by decide,
    C6_amended_superadditive _ _ (by decide) (by decide)⟩

/-- Claim C7 as stated is false at a concrete input: constructing a
`ScanResult` with `is_safe = False` and score 0 keeps `is_safe = False`
even though the score is below the threshold — `__post_init__` only forces
`False` for scores of 50 and above, it never forces `True`. -/
theorem C7_counterexample :
    ¬((mkScanResult false 0 []).is_safe = true ↔ (0 : Int) < 50) := by
  decide

/-- Claim C7 (amended): after construction, `is_safe` equals the
conjunction of the value passed to the constructor with `score < 50`:
`__post_init__` forces `is_safe := False` whenever the score is 50 or
more, and keeps the passed value otherwise.  In particular a constructed
result can never report safe with a score at or above the threshold. -/
theorem C7_amended_post_init (b : Bool) (s : Int) (d : List String) :
    (mkScanResult b s d).is_safe = (b && decide (s < 50)) := by
  unfold mkScanResult
  by_cases h : 50 ≤ s
  · rw [if_pos h, decide_eq_false (by omega)]
    simp
  · rw [if_neg h, decide_eq_true (by omega)]
    simp

/-- Claim C8 as stated is false at a concrete input: the content
`<!-- a>ignore -->` contains a markup comment containing the word
`ignore` (the spec-worded predicate holds), yet the compiled pattern
rejects it — its `[^>]*` filler cannot cross the `>` before the keyword —
so the rule does not match and nothing is contributed to the score. -/
theorem C8_counterexample :
    specSuspiciousComment (chars ("<!-- a>ignore -->")) = true ∧
      searchB ruleSuspiciousComment.1 (chars ("<!-- a>ignore -->")) = false ∧
      (scan (chars ("<!-- a>ignore -->"))).score = 0 :=
  ⟨by decide, by decide, by decide⟩

/-- Claim C8 (amended): the suspicious-comment rule matches whenever the
content contains `<!--`, then filler `u`, then one of the words
instruction / ignore / system / prompt in any letter case, then filler
`v`, then `-->`, with no `>` occurring in either filler; the rule then
contributes its weight 25 to the score (the score is at least 25 and the
rule's detection string is reported). -/
theorem C8_amended_suspicious_comment (pre u w v post : List Char)
    (hu : '>' ∉ u) (hv : '>' ∉ v)
    (hw : w.map toLowerCh = chars ("instruction") ∨
          w.map toLowerCh = chars ("ignore") ∨
          w.map toLowerCh = chars ("system") ∨
          w.map toLowerCh = chars ("prompt")) :
    searchB ruleSuspiciousComment.1 (commentSplice pre u w v post) = true ∧
      25 ≤ (scan (commentSplice pre u w v post)).score ∧
      "Structure: Suspicious HTML comment (+25)" ∈
        (scan (commentSplice pre u w v post)).detections := by
  have hm := suspiciousComment_matches pre u w v post hu hv hw
  have hcne : commentSplice pre u w v post ≠ [] := by
    refine List.length_pos.mp ?_
    unfold commentSplice
    rw [List.length_append, List.length_append]
    have h4 : (chars ("<!--")).length = 4 := rfl
    omega
  obtain ⟨h25, hdet⟩ := suspiciousComment_scores hcne hm
  exact ⟨hm, h25, hdet⟩

/-- Witness for the amended claim C8 at a concrete input. -/
theorem C8_amended_suspicious_comment_witness :
    ('>' ∉ ([] : List Char)) ∧
      ((chars ("ignore")).map toLowerCh = chars ("ignore")) ∧
      (searchB ruleSuspiciousComment.1
          (commentSplice [] [] (chars ("ignore")) [] []) = true ∧
        25 ≤ (scan (commentSplice [] [] (chars ("ignore")) [] [])).score ∧
        "Structure: Suspicious HTML comment (+25)" ∈
          (scan (commentSplice [] [] (chars ("ignore")) [] [])).detections) :=
  ⟨by decide, by decide,
    C8_amended_suspicious_comment [] [] (chars ("ignore")) [] []
      (by decide) (by decide) (Or.inr (Or.inl (by decide)))⟩

/-- Claim C9: for every nonempty input the detections list is exactly one
formatted string per matched rule in corpus evaluation order — the matched
lexical (injection) rules first, then the matched structural rules, each
family in declaration order — each string embedding the rule's label and
weight through `fmtInj` / `fmtStruct`; being a function of the input, the
ordering is deterministic for identical input. -/
theorem C9_detections_in_corpus_order (content : List Char)
    (hc : content ≠ []) :
    (scan content).detections =
      (matchedRules INJECTION_PATTERNS content).map fmtInj ++
        (matchedRules STRUCTURAL_PATTERNS content).map fmtStruct :=
  scan_detections_eq hc

/-- Witness for claim C9 at a concrete nonempty input. -/
theorem C9_detections_in_corpus_order_witness :
    chars ("JAILBREAK") ≠ [] ∧
      (scan (chars ("JAILBREAK"))).detections =
        (matchedRules INJECTION_PATTERNS (chars ("JAILBREAK"))).map fmtInj ++
          (matchedRules STRUCTURAL_PATTERNS (chars ("JAILBREAK"))).map
            fmtStruct :=
  ⟨by decide, C9_detections_in_corpus_order _ (by decide)⟩

/-- Claim C10: the optional context arguments of `scan_with_context` have
no influence on the result — for every content and every choice of `url`
and `tool_name` (including none), it returns exactly `scan content`. -/
theorem C10_context_has_no_influence (content : List Char)
    (url tool_name : Option String) :
    scan_with_context content url tool_name = scan content := rfl
